import Mathlib

/-!
Verification of the caching, query-construction, pagination and invalidation
core of the AzureDevOpsBacklogExplorer extension (`src/adoService.ts`,
`src/adoBacklogProvider.ts`), as a shallow embedding in Lean.

The JavaScript `Map<string, _>` objects (`cache`, `stateCache`, `loadedCounts`)
are modelled as association lists with first-match lookup; `Map.set` is
modelled extensionally as delete-then-prepend, `Map.delete` as filtering,
which agrees with JS `Map` on every `get`. Timestamps (`Date.now()`) are
modelled as integers (milliseconds).
-/

namespace AdoBacklog

/-- Association-list model of a JS `Map<string, α>`: first binding wins. -/
def AMap (α : Type) : Type := List (String × α)

/-- `Map.prototype.get`. -/
def amapGet {α : Type} : AMap α → String → Option α
  | [], _ => none
  | (k', v) :: rest, k => if k' = k then some v else amapGet rest k

/-- `Map.prototype.delete` (drops every binding for the key). -/
def amapDelete {α : Type} (m : AMap α) (k : String) : AMap α :=
  m.filter (fun p => !(p.1 = k : Bool))

/-- `Map.prototype.set`: overwrite any existing binding for the key. -/
def amapSet {α : Type} (m : AMap α) (k : String) (v : α) : AMap α :=
  (k, v) :: amapDelete m k

/-- Keys of the map, in iteration order (`Map.prototype.forEach`). -/
def amapKeys {α : Type} (m : AMap α) : List String := m.map Prod.fst

theorem amapGet_nil {α : Type} (k : String) : amapGet ([] : AMap α) k = none := rfl

theorem amapDelete_nil {α : Type} (k : String) : amapDelete ([] : AMap α) k = [] := rfl

theorem amapDelete_cons {α : Type} (p : String × α) (rest : AMap α) (k : String) :
    amapDelete (p :: rest) k
      = if p.1 = k then amapDelete rest k else p :: amapDelete rest k := by
  by_cases h : p.1 = k <;> simp [amapDelete, List.filter, h]

theorem amapGet_delete_self {α : Type} (m : AMap α) (k : String) :
    amapGet (amapDelete m k) k = none := by
  induction m with
  | nil => rfl
  | cons p rest ih =>
    rw [amapDelete_cons]
    by_cases h : p.1 = k
    · simpa [h] using ih
    · simpa [amapGet, h] using ih

theorem amapGet_delete_other {α : Type} (m : AMap α) (k k' : String) (h : k' ≠ k) :
    amapGet (amapDelete m k) k' = amapGet m k' := by
  induction m with
  | nil => rfl
  | cons p rest ih =>
    rw [amapDelete_cons]
    by_cases hp : p.1 = k
    · simp [amapGet, hp, Ne.symm h, ih]
    · by_cases hp' : p.1 = k'
      · simp [amapGet, hp, hp', h]
      · simp [amapGet, hp, hp', ih]

theorem amapGet_set_self {α : Type} (m : AMap α) (k : String) (v : α) :
    amapGet (amapSet m k v) k = some v := by
  simp [amapSet, amapGet]

theorem amapGet_set_other {α : Type} (m : AMap α) (k k' : String) (v : α) (h : k' ≠ k) :
    amapGet (amapSet m k v) k' = amapGet m k' := by
  have hk : k ≠ k' := fun hk => h hk.symm
  simp [amapSet, amapGet, hk, amapGet_delete_other m k k' h]

theorem amapGet_mem_keys {α : Type} (m : AMap α) (k : String) {v : α}
    (h : amapGet m k = some v) : k ∈ amapKeys m := by
  induction m with
  | nil => simp [amapGet] at h
  | cons p rest ih =>
    by_cases hp : p.1 = k
    · simp [amapKeys, hp]
    · simp only [amapGet, hp, if_false] at h
      simp [amapKeys] at ih ⊢
      exact Or.inr (by simpa [amapKeys] using ih h)

theorem amapGet_none_of_not_mem_keys {α : Type} (m : AMap α) (k : String)
    (h : k ∉ amapKeys m) : amapGet m k = none := by
  cases hg : amapGet m k with
  | none => rfl
  | some v => exact absurd (amapGet_mem_keys m k hg) h

/-- Deleting a list of keys with a left fold (the `keysToDelete.forEach` loop). -/
theorem amapGet_foldl_delete {α : Type} (L : List String) (m : AMap α) (k : String) :
    amapGet (L.foldl amapDelete m) k = if k ∈ L then none else amapGet m k := by
  induction L generalizing m with
  | nil => simp
  | cons x xs ih =>
    by_cases hx : k = x
    · subst hx
      by_cases hmem : k ∈ xs
      · simp [ih, hmem]
      · simp [ih, hmem, amapGet_delete_self]
    · by_cases hmem : k ∈ xs
      · simp [ih, hmem, hx]
      · simp [ih, hmem, hx, amapGet_delete_other m x k hx]

/-!
### TTL cache (`AdoService.cache`, `getCached`, `setCache`, `clearCache`)
-/

/-- One entry of `AdoService.cache`: `{data, timestamp}` (`adoService.ts:9`). -/
structure CacheEntry (α : Type) where
  data : α
  timestamp : Int
  deriving DecidableEq, Repr

/-- The `cache` map of `AdoService`. -/
def Cache (α : Type) : Type := AMap (CacheEntry α)

/-- `CACHE_TTL = 5 * 60 * 1000` milliseconds (`adoService.ts:11`). -/
def CACHE_TTL : Int := 5 * 60 * 1000

/-- `getCached` (`adoService.ts:33-39`): return the data when the entry exists
and `now - timestamp < CACHE_TTL`, else `null` (here `none`). It performs no
mutation on the cache (the source only calls `cache.get`). -/
def getCached {α : Type} (c : Cache α) (now : Int) (key : String) : Option α :=
  match amapGet c key with
  | some e => if now - e.timestamp < CACHE_TTL then some e.data else none
  | none => none

/-- `setCache` (`adoService.ts:41-43`): store `{data, timestamp: Date.now()}`. -/
def setCache {α : Type} (c : Cache α) (key : String) (d : α) (now : Int) : Cache α :=
  amapSet c key ⟨d, now⟩

/-- `clearCache` (`adoService.ts:28-31`), effect on the main cache. -/
def clearCache {α : Type} (_c : Cache α) : Cache α := []

/-!
### Mutation-driven invalidation (`invalidateWorkItemCache`, `adoService.ts:417-430`)
-/

/-- The JS `String.prototype.startsWith`, on Unicode scalar sequences. -/
def strStartsWith (s p : String) : Bool := p.data.isPrefixOf s.data

/-- The key predicate of the `cache.forEach` collection loop
(`adoService.ts:425`). -/
def invalidationTarget (key : String) : Bool :=
  strStartsWith key "children_" || strStartsWith key "epics_"

/-- `invalidateWorkItemCache` (`adoService.ts:417-430`): delete the bare
`children_<id>` key, then collect every key starting with `children_` or
`epics_` and delete them all. -/
def invalidateWorkItemCache {α : Type} (c : Cache α) (workItemId : Nat) : Cache α :=
  let c1 := amapDelete c ("children_" ++ toString workItemId)
  let keysToDelete := (amapKeys c1).filter invalidationTarget
  keysToDelete.foldl amapDelete c1

/-- The five mutation operations of `AdoService`; each one ends by calling
`invalidateWorkItemCache` on the id shown (`adoService.ts:403,414,468,503,529`). -/
inductive Mutation where
  | updateWorkItem (workItemId : Nat)
  | deleteWorkItem (workItemId : Nat)
  | createWorkItem (newWorkItemId : Nat)
  | addParentLink (workItemId : Nat) (parentId : Nat)
  | removeParentLink (workItemId : Nat)
  deriving DecidableEq, Repr

/-- The id each mutation passes to `invalidateWorkItemCache`. -/
def Mutation.invalidatedId : Mutation → Nat
  | .updateWorkItem i => i
  | .deleteWorkItem i => i
  | .createWorkItem i => i
  | .addParentLink i _ => i
  | .removeParentLink i => i

/-- Effect of a completed mutation on the main cache: every mutation's only
cache write is its final `invalidateWorkItemCache` call. -/
def Mutation.cacheAfter {α : Type} (mu : Mutation) (c : Cache α) : Cache α :=
  invalidateWorkItemCache c mu.invalidatedId

theorem isPrefixOf_append_self (p k : List Char) : p.isPrefixOf (p ++ k) = true := by
  induction p with
  | nil => simp [List.isPrefixOf]
  | cons c cs ih => simp [List.isPrefixOf, ih]

theorem strStartsWith_append (p k : String) : strStartsWith (p ++ k) p = true := by
  have hdata : (p ++ k).data = p.data ++ k.data := by
    cases p; cases k; rfl
  simp [strStartsWith, hdata, isPrefixOf_append_self]

theorem invalidationTarget_bareChildren (workItemId : Nat) :
    invalidationTarget ("children_" ++ toString workItemId) = true := by
  simp [invalidationTarget, strStartsWith_append]

theorem amapGet_invalidate_target {α : Type} (c : Cache α) (workItemId : Nat)
    (key : String) (h : invalidationTarget key = true) :
    amapGet (invalidateWorkItemCache c workItemId) key = none := by
  unfold invalidateWorkItemCache
  rw [amapGet_foldl_delete]
  by_cases hmem : key ∈ (amapKeys (amapDelete c ("children_" ++ toString workItemId))).filter invalidationTarget
  · simp [hmem]
  · simp only [hmem, if_false]
    apply amapGet_none_of_not_mem_keys
    intro hk
    exact hmem (List.mem_filter.mpr ⟨hk, h⟩)

theorem amapGet_invalidate_other {α : Type} (c : Cache α) (workItemId : Nat)
    (key : String) (h : invalidationTarget key = false) :
    amapGet (invalidateWorkItemCache c workItemId) key = amapGet c key := by
  unfold invalidateWorkItemCache
  rw [amapGet_foldl_delete]
  have hnot : key ∉ (amapKeys (amapDelete c ("children_" ++ toString workItemId))).filter invalidationTarget := by
    intro hk
    have := (List.mem_filter.mp hk).2
    rw [h] at this
    simp at this
  simp only [hnot, if_false]
  apply amapGet_delete_other
  intro heq
  rw [heq] at h
  rw [invalidationTarget_bareChildren workItemId] at h
  simp at h

/-- Claim C4: a value set at time `T` is returned by a `get` strictly before
`T + CACHE_TTL` and treated as absent at or after `T + CACHE_TTL`
(TTL = 5 minutes); a never-set key reads as absent; `getCached` performs no
mutation (it is a pure read in this model, as in the source, which only calls
`cache.get`); a later `set` simply overwrites the entry with the new
`storedAt` timestamp. -/
theorem claim_C4_ttl_expiry {α : Type} (c : Cache α) (key : String) (d : α) (T now : Int) :
    (now < T + CACHE_TTL → getCached (setCache c key d T) now key = some d)
    ∧ (T + CACHE_TTL ≤ now → getCached (setCache c key d T) now key = none)
    ∧ (amapGet c key = none → getCached c now key = none)
    ∧ amapGet (setCache c key d T) key = some ⟨d, T⟩ := by
  refine ⟨?_, ?_, ?_, ?_⟩
  · intro h
    have hlt : now - T < CACHE_TTL := by omega
    simp [getCached, setCache, amapGet_set_self, hlt]
  · intro h
    have hge : ¬(now - T < CACHE_TTL) := by omega
    simp [getCached, setCache, amapGet_set_self, hge]
  · intro h
    simp [getCached, h]
  · simp [setCache, amapGet_set_self]

/-- Concrete instantiation of `claim_C4_ttl_expiry` (key `"k"`, value `3`,
stored at time `0`, read at times `1` and `300000`). -/
theorem claim_C4_ttl_expiry_witness :
    getCached (setCache ([] : Cache Nat) "k" 3 0) 1 "k" = some 3
    ∧ getCached (setCache ([] : Cache Nat) "k" 3 0) 300000 "k" = none
    ∧ getCached ([] : Cache Nat) 1 "k" = none
    ∧ amapGet (setCache ([] : Cache Nat) "k" 3 0) "k" = some ⟨3, 0⟩ :=
  ⟨(claim_C4_ttl_expiry [] "k" 3 0 1).1 (by decide),
   (claim_C4_ttl_expiry [] "k" 3 0 300000).2.1 (by decide),
   (claim_C4_ttl_expiry ([] : Cache Nat) "k" 3 0 1).2.2.1 rfl,
   (claim_C4_ttl_expiry [] "k" 3 0 1).2.2.2⟩

/-- Claim C2: after any of the five mutations completes, every cache key
starting with `children_` or `epics_` reads as absent, while every other key's
entry is untouched (and, within TTL, still returned by `getCached`). -/
theorem claim_C2_invalidation_completeness {α : Type} (mu : Mutation) (c : Cache α)
    (key : String) (now : Int) :
    (invalidationTarget key = true → getCached (mu.cacheAfter c) now key = none)
    ∧ (invalidationTarget key = false →
        amapGet (mu.cacheAfter c) key = amapGet c key
        ∧ getCached (mu.cacheAfter c) now key = getCached c now key) := by
  constructor
  · intro h
    simp [getCached, Mutation.cacheAfter, amapGet_invalidate_target c mu.invalidatedId key h]
  · intro h
    have hg := amapGet_invalidate_other c mu.invalidatedId key h
    exact ⟨by simpa [Mutation.cacheAfter] using hg,
           by simp [getCached, Mutation.cacheAfter, hg]⟩

/-- Concrete instantiation of `claim_C2_invalidation_completeness`: an
`updateWorkItem 5` mutation on a cache holding a `children_1_nofilters` entry,
an `epics_TeamX_nofilters` entry and an `allTeamMembers` entry, read at a time
within TTL. -/
theorem claim_C2_invalidation_completeness_witness :
    (invalidationTarget "children_1_nofilters" = true
      ∧ getCached ((Mutation.updateWorkItem 5).cacheAfter
          ([("children_1_nofilters", ⟨3, 0⟩), ("epics_TeamX_nofilters", ⟨4, 0⟩),
            ("allTeamMembers", ⟨7, 0⟩)] : Cache Nat)) 1 "children_1_nofilters" = none)
    ∧ (invalidationTarget "epics_TeamX_nofilters" = true
      ∧ getCached ((Mutation.updateWorkItem 5).cacheAfter
          ([("children_1_nofilters", ⟨3, 0⟩), ("epics_TeamX_nofilters", ⟨4, 0⟩),
            ("allTeamMembers", ⟨7, 0⟩)] : Cache Nat)) 1 "epics_TeamX_nofilters" = none)
    ∧ (invalidationTarget "allTeamMembers" = false
      ∧ getCached ((Mutation.updateWorkItem 5).cacheAfter
          ([("children_1_nofilters", ⟨3, 0⟩), ("epics_TeamX_nofilters", ⟨4, 0⟩),
            ("allTeamMembers", ⟨7, 0⟩)] : Cache Nat)) 1 "allTeamMembers"
          = getCached ([("children_1_nofilters", ⟨3, 0⟩), ("epics_TeamX_nofilters", ⟨4, 0⟩),
            ("allTeamMembers", ⟨7, 0⟩)] : Cache Nat) 1 "allTeamMembers") :=
  ⟨⟨by decide, (claim_C2_invalidation_completeness (Mutation.updateWorkItem 5) _ _ 1).1 (by decide)⟩,
   ⟨by decide, (claim_C2_invalidation_completeness (Mutation.updateWorkItem 5) _ _ 1).1 (by decide)⟩,
   ⟨by decide, ((claim_C2_invalidation_completeness (Mutation.updateWorkItem 5) _ _ 1).2 (by decide)).2⟩⟩

/-!
### Pagination (`adoBacklogProvider.ts:239-273`)
-/

/-- `PAGE_SIZE = 50` (`adoBacklogProvider.ts:5`). -/
def PAGE_SIZE : Nat := 50

/-- The work-item data the pagination/rendering path reads. -/
structure WorkItem where
  id : Nat
  title : String
  deriving DecidableEq, Repr

/-- Tree rows produced by `paginateItems`: a rendered work item
(`new BacklogItem(title, ..., itemType, item, teamName)`) or the `Load More`
sentinel carrying the remaining count and the parent key
(`adoBacklogProvider.ts:251-263`). -/
inductive BacklogItem where
  | item (label : String) (itemType : String) (workItemId : Nat)
  | loadMoreSentinel (remaining : Nat) (parentKey : String)
  deriving DecidableEq, Repr

/-- JS `x || PAGE_SIZE` on `loadedCounts.get(parentKey)`: `undefined` and `0`
are falsy. -/
def orPageSize : Option Nat → Nat
  | none => PAGE_SIZE
  | some n => if n = 0 then PAGE_SIZE else n

/-- The revealed count for a parent key:
`this.loadedCounts.get(parentKey) || PAGE_SIZE` (`adoBacklogProvider.ts:240,270`). -/
def revealCount (counts : AMap Nat) (parentKey : String) : Nat :=
  orPageSize (amapGet counts parentKey)

/-- `loadMore` (`adoBacklogProvider.ts:269-273`):
`loadedCounts.set(parentKey, currentCount + PAGE_SIZE)`. -/
def loadMore (counts : AMap Nat) (parentKey : String) : AMap Nat :=
  amapSet counts parentKey (revealCount counts parentKey + PAGE_SIZE)

/-- Rendering of one sliced work item inside `paginateItems`
(`adoBacklogProvider.ts:242-248`). -/
def renderItem (itemType : String) (w : WorkItem) : BacklogItem :=
  .item w.title itemType w.id

/-- `paginateItems` (`adoBacklogProvider.ts:239-267`): slice the full list to
the revealed count and append a `Load More` sentinel when items remain. -/
def paginateItems (items : List WorkItem) (parentKey : String) (itemType : String)
    (counts : AMap Nat) : List BacklogItem :=
  let loadedCount := revealCount counts parentKey
  let itemsToShow := items.take loadedCount
  let result := itemsToShow.map (renderItem itemType)
  if items.length > loadedCount then
    result ++ [.loadMoreSentinel (items.length - loadedCount) parentKey]
  else
    result

theorem revealCount_nil (k : String) : revealCount [] k = PAGE_SIZE := rfl

theorem revealCount_loadMore_self (m : AMap Nat) (k : String) :
    revealCount (loadMore m k) k = revealCount m k + PAGE_SIZE := by
  have h : revealCount m k + PAGE_SIZE ≠ 0 := by
    have : 0 < PAGE_SIZE := by decide
    omega
  rw [loadMore]
  conv_lhs => rw [revealCount, amapGet_set_self]
  simp [orPageSize, h]

theorem revealCount_loadMore_other (m : AMap Nat) (k k' : String) (h : k' ≠ k) :
    revealCount (loadMore m k) k' = revealCount m k' := by
  simp [loadMore, revealCount, amapGet_set_other m k k' _ h]

theorem revealCount_foldl_loadMore (ops : List String) (m : AMap Nat) (k : String) :
    revealCount (ops.foldl loadMore m) k
      = revealCount m k + PAGE_SIZE * ops.count k := by
  induction ops generalizing m with
  | nil => simp
  | cons op rest ih =>
    rw [List.foldl_cons, ih]
    by_cases hop : op = k
    · subst hop
      rw [revealCount_loadMore_self]
      simp [List.count_cons]
      ring
    · rw [revealCount_loadMore_other m op k (fun h => hop h.symm)]
      simp [List.count_cons, hop]

theorem sentinel_not_mem_map (t : String) (ws : List WorkItem) (rem : Nat) (pk : String) :
    BacklogItem.loadMoreSentinel rem pk ∉ ws.map (renderItem t) := by
  intro hmem
  rcases List.mem_map.mp hmem with ⟨w, _, hw⟩
  simp [renderItem] at hw

theorem paginateItems_eq (items : List WorkItem) (k t : String) (m : AMap Nat) :
    paginateItems items k t m
      = (items.take (revealCount m k)).map (renderItem t)
        ++ (if revealCount m k < items.length
            then [BacklogItem.loadMoreSentinel (items.length - revealCount m k) k]
            else []) := by
  by_cases h : items.length > revealCount m k
  · simp [paginateItems, h]
  · have h' : ¬ revealCount m k < items.length := h
    simp [paginateItems, h, h']

/-- Claim C6: starting from a fresh session, the revealed count for a key is
`PAGE_SIZE * (number of loadMore calls for that key + 1)` — so it is 50 when
`loadMore` was never called, grows by exactly 50 per call, is non-decreasing
and always a positive multiple of 50; and `paginateItems` renders exactly the
prefix of the full list of length the revealed count, with one trailing
`Load More` sentinel (carrying the remaining count and the parent key) present
iff the revealed count is less than the total. -/
theorem claim_C6_pagination :
    (∀ (ops : List String) (k : String),
      revealCount (ops.foldl loadMore []) k = PAGE_SIZE * (ops.count k + 1))
    ∧ (∀ (m : AMap Nat) (k : String),
      revealCount (loadMore m k) k = revealCount m k + PAGE_SIZE)
    ∧ (∀ (items : List WorkItem) (k t : String) (m : AMap Nat),
      paginateItems items k t m
        = (items.take (revealCount m k)).map (renderItem t)
          ++ (if revealCount m k < items.length
              then [BacklogItem.loadMoreSentinel (items.length - revealCount m k) k]
              else []))
    ∧ (∀ (items : List WorkItem) (k t : String) (m : AMap Nat) (rem : Nat) (pk : String),
      BacklogItem.loadMoreSentinel rem pk ∈ paginateItems items k t m
        ↔ (revealCount m k < items.length
            ∧ rem = items.length - revealCount m k ∧ pk = k)) := by
  refine ⟨?_, revealCount_loadMore_self, paginateItems_eq, ?_⟩
  · intro ops k
    rw [revealCount_foldl_loadMore, revealCount_nil]
    ring
  · intro items k t m rem pk
    rw [paginateItems_eq items k t m]
    by_cases h : revealCount m k < items.length
    · rw [if_pos h]
      constructor
      · intro hmem
        rcases List.mem_append.mp hmem with hmem | hmem
        · exact absurd hmem (sentinel_not_mem_map t _ rem pk)
        · have heq := List.mem_singleton.mp hmem
          injection heq with h1 h2
          exact ⟨h, h1, h2⟩
      · rintro ⟨_, h1, h2⟩
        subst h1; subst h2
        exact List.mem_append.mpr (Or.inr (List.mem_singleton.mpr rfl))
    · rw [if_neg h]
      rw [List.append_nil]
      constructor
      · intro hmem
        exact absurd hmem (sentinel_not_mem_map t _ rem pk)
      · rintro ⟨hlt, _, _⟩
        exact absurd hlt h

/-!
### Configuration and connection state (`adoService.ts:45-62`)
-/

/-- The `config` object built by `loadConfig` (`adoService.ts:47-52`); each
`config.get<string>` result is `undefined` (`none`) or a string. -/
structure AdoConfig where
  organizationUrl : Option String
  pat : Option String
  project : Option String
  areaPaths : List String
  deriving DecidableEq, Repr

/-- JS truthiness of an optional string: `undefined` and `""` are falsy. -/
def truthyStr : Option String → Bool
  | none => false
  | some s => !(s = "" : Bool)

/-- `isConfigured` (`adoService.ts:60-62`):
`!!(organizationUrl && pat && project)`. -/
def isConfigured (c : AdoConfig) : Bool :=
  truthyStr c.organizationUrl && truthyStr c.pat && truthyStr c.project

/-- The `azdev.WebApi` connection, identified by the credentials it was built
from (`adoService.ts:55-56`). -/
structure Connection where
  orgUrl : String
  pat : String
  deriving DecidableEq, Repr

/-- The connection-relevant state of `AdoService`. -/
structure ServiceState where
  config : AdoConfig
  connection : Option Connection
  deriving DecidableEq, Repr

/-- State before the constructor's first `loadConfig` call: `connection` is
initialised to `null` (`adoService.ts:7`). -/
def baseState : ServiceState :=
  { config := ⟨none, none, none, []⟩, connection := none }

/-- `loadConfig` (`adoService.ts:45-58`): store the new config; build a fresh
connection only when configured — an existing connection is NOT cleared when
the new config is incomplete. -/
def loadConfig (st : ServiceState) (cfg : AdoConfig) : ServiceState :=
  { config := cfg,
    connection :=
      if isConfigured cfg then
        some ⟨cfg.organizationUrl.getD "", cfg.pat.getD ""⟩
      else st.connection }

/-- Outcome of an operation's connection guard: a value returned without
contacting the remote system, a rejection (`throw new Error(...)`), or
proceeding to the remote call. -/
inductive OpResult (α : Type) where
  | value (v : α)
  | thrown (msg : String)
  | remoteCall
  deriving DecidableEq, Repr

/-- `getTeams` (`adoService.ts:64-76`): `[]` without a connection, else the
configured area paths mapped to team entries (no remote call either way). -/
def getTeams (st : ServiceState) : List (String × String) :=
  if st.connection = none then []
  else st.config.areaPaths.map (fun p =>
    ((p.splitOn "\\").getLastD p, p))

/-- Connection guard of `getEpicsForTeam` (`adoService.ts:114`). -/
def getEpicsForTeam_guard (st : ServiceState) : OpResult (List WorkItem) :=
  if st.connection = none then .value [] else .remoteCall

/-- Connection guard of `getChildWorkItems` (`adoService.ts:202`). -/
def getChildWorkItems_guard (st : ServiceState) : OpResult (List WorkItem) :=
  if st.connection = none then .value [] else .remoteCall

/-- Connection guard of `getBatchChildWorkItems` (`adoService.ts:282`):
`return new Map()`. -/
def getBatchChildWorkItems_guard (st : ServiceState) : OpResult (List (Nat × List WorkItem)) :=
  if st.connection = none then .value [] else .remoteCall

/-- Connection guard of `getWorkItemTypeFields` (`adoService.ts:347`). -/
def getWorkItemTypeFields_guard (st : ServiceState) : OpResult (List String) :=
  if st.connection = none then .value [] else .remoteCall

/-- Connection guard shared by the five mutations
(`adoService.ts:385,407,437,474,507`): `throw new Error('Not connected to
Azure DevOps')`. -/
def mutation_guard (st : ServiceState) : OpResult Unit :=
  if st.connection = none then .thrown "Not connected to Azure DevOps" else .remoteCall

/-- Counterexample to claim C7 as stated: a complete configuration followed by
an incomplete one leaves the stale connection in place
(`loadConfig` only assigns `this.connection` inside `if (this.isConfigured())`),
so with a configuration missing the organization URL the read path does NOT
return an empty result — it proceeds to contact the remote system. -/
theorem claim_C7_counterexample :
    isConfigured (loadConfig (loadConfig baseState
        ⟨some "https://dev.azure.com/org", some "token", some "proj", []⟩)
        ⟨none, some "token", some "proj", []⟩).config = false
    ∧ getEpicsForTeam_guard (loadConfig (loadConfig baseState
        ⟨some "https://dev.azure.com/org", some "token", some "proj", []⟩)
        ⟨none, some "token", some "proj", []⟩) = .remoteCall
    ∧ (OpResult.remoteCall : OpResult (List WorkItem)) ≠ .value []
    ∧ mutation_guard (loadConfig (loadConfig baseState
        ⟨some "https://dev.azure.com/org", some "token", some "proj", []⟩)
        ⟨none, some "token", some "proj", []⟩) = .remoteCall := by
  refine ⟨by decide, by decide, by decide, by decide⟩

/-- Claim C7 (amended): whenever the service holds no connection — which is
guaranteed as long as no complete configuration has ever been loaded — every
read operation returns an empty result without throwing, and every mutation
rejects with an error instead of contacting the remote system. -/
theorem claim_C7_not_configured (st : ServiceState) (h : st.connection = none) :
    getTeams st = []
    ∧ getEpicsForTeam_guard st = .value []
    ∧ getChildWorkItems_guard st = .value []
    ∧ getBatchChildWorkItems_guard st = .value []
    ∧ getWorkItemTypeFields_guard st = .value []
    ∧ mutation_guard st = .thrown "Not connected to Azure DevOps"
    ∧ (∀ cfgs : List AdoConfig, (∀ c ∈ cfgs, isConfigured c = false) →
        (cfgs.foldl loadConfig st).connection = none) := by
  refine ⟨by simp [getTeams, h], by simp [getEpicsForTeam_guard, h],
    by simp [getChildWorkItems_guard, h], by simp [getBatchChildWorkItems_guard, h],
    by simp [getWorkItemTypeFields_guard, h], by simp [mutation_guard, h], ?_⟩
  intro cfgs hall
  induction cfgs generalizing st with
  | nil => simpa using h
  | cons cfg rest ih =>
    rw [List.foldl_cons]
    refine ih (loadConfig st cfg) ?_ (fun c hc => hall c (List.mem_cons_of_mem cfg hc))
    have hcfg : isConfigured cfg = false := hall cfg (List.mem_cons_self cfg rest)
    simp [loadConfig, hcfg, h]

/-- Concrete instantiation of `claim_C7_not_configured` at the fresh state. -/
theorem claim_C7_not_configured_witness :
    getTeams baseState = []
    ∧ getEpicsForTeam_guard baseState = .value []
    ∧ getChildWorkItems_guard baseState = .value []
    ∧ getBatchChildWorkItems_guard baseState = .value []
    ∧ getWorkItemTypeFields_guard baseState = .value []
    ∧ mutation_guard baseState = .thrown "Not connected to Azure DevOps"
    ∧ (loadConfig baseState ⟨none, none, none, []⟩).connection = none := by
  have h := claim_C7_not_configured baseState rfl
  refine ⟨h.1, h.2.1, h.2.2.1, h.2.2.2.1, h.2.2.2.2.1, h.2.2.2.2.2.1, ?_⟩
  have h7 := h.2.2.2.2.2.2 [⟨none, none, none, []⟩] (by intro c hc; simp at hc; subst hc; rfl)
  simpa using h7

/-!
### Available states (`getAvailableStates`, `adoService.ts:317-339`)
-/

/-- Outcome of `witApi.getWorkItemType(project, workItemType)` as the guard
`if (workItemTypeObj && workItemTypeObj.states)` sees it: the call threw
(caught at `adoService.ts:331`), the object or its `states` field is falsy, or
a `states` array (possibly empty — a JS array is always truthy) whose elements
have an optional `name`. -/
inductive WitTypeResponse where
  | fetchFailed
  | missing
  | states (l : List (Option String))
  deriving DecidableEq, Repr

/-- The fallback list (`adoService.ts:336`). -/
def fallbackStates (currentState : String) : List String :=
  [currentState, "New", "Active", "Resolved", "Closed", "Removed"]

/-- `getAvailableStates` (`adoService.ts:317-339`), returning the result list
and the updated `stateCache` (a plain map with no timestamps, hence no TTL).
The remote response is passed as a parameter; a cache hit never consults it. -/
def getAvailableStates (st : ServiceState) (stateCache : AMap (List String))
    (resp : WitTypeResponse) (workItemType : String) (currentState : String) :
    List String × AMap (List String) :=
  if st.connection = none then ([currentState], stateCache)
  else
    match amapGet stateCache workItemType with
    | some cached => (cached, stateCache)
    | none =>
      match resp with
      | .states l =>
          let states := (l.map (fun n => n.getD "")).filter (fun n => !(n = "" : Bool))
          (states, amapSet stateCache workItemType states)
      | .fetchFailed =>
          (fallbackStates currentState,
           amapSet stateCache workItemType (fallbackStates currentState))
      | .missing =>
          (fallbackStates currentState,
           amapSet stateCache workItemType (fallbackStates currentState))

/-- `clearCache` (`adoService.ts:28-31`), effect on the state cache. -/
def clearStateCache (_sc : AMap (List String)) : AMap (List String) := []

/-- Counterexample to claim C10 as stated: with a connection, an empty state
cache and a remote response carrying an EMPTY `states` array (a fetch that
"returns no states"), `getAvailableStates` does not fall back — a JS array is
truthy even when empty, so the empty list is cached and returned. -/
theorem claim_C10_counterexample :
    getAvailableStates ⟨⟨some "u", some "t", some "p", []⟩, some ⟨"u", "t"⟩⟩ []
        (.states []) "Bug" "New"
      = ([], [("Bug", [])])
    ∧ ([] : List String) ≠ fallbackStates "New" := by
  refine ⟨rfl, by decide⟩

/-- Claim C10 (amended): when no connection is configured the call returns
`[currentState]` and caches nothing. Otherwise, on a state-cache miss, the
fallback list `[currentState, New, Active, Resolved, Closed, Removed]` is
returned and cached exactly when the remote fetch throws or the response lacks
a `states` field; a present-but-empty (or all-empty-name) `states` array
instead yields the empty list, which is cached and returned as-is. The state
cache has no TTL: any later call for a cached type returns the stored list
regardless of the remote response, until `clearCache` empties it. -/
theorem claim_C10_states (st : ServiceState) (sc : AMap (List String))
    (t cur : String) :
    (st.connection = none →
      ∀ resp, getAvailableStates st sc resp t cur = ([cur], sc))
    ∧ (st.connection ≠ none → amapGet sc t = none →
        (getAvailableStates st sc .fetchFailed t cur
            = (fallbackStates cur, amapSet sc t (fallbackStates cur))
          ∧ getAvailableStates st sc .missing t cur
            = (fallbackStates cur, amapSet sc t (fallbackStates cur))
          ∧ ∀ l, getAvailableStates st sc (.states l) t cur
              = ((l.map (fun n => n.getD "")).filter (fun n => !(n = "" : Bool)),
                 amapSet sc t ((l.map (fun n => n.getD "")).filter (fun n => !(n = "" : Bool))))))
    ∧ (st.connection ≠ none → ∀ cached, amapGet sc t = some cached →
        ∀ resp, getAvailableStates st sc resp t cur = (cached, sc))
    ∧ (st.connection ≠ none → ∀ resp resp',
        getAvailableStates st
          (getAvailableStates st sc resp t cur).2 resp' t cur
          = ((getAvailableStates st sc resp t cur).1,
             (getAvailableStates st sc resp t cur).2))
    ∧ amapGet (clearStateCache sc) t = none := by
  refine ⟨?_, ?_, ?_, ?_, rfl⟩
  · intro h resp
    simp [getAvailableStates, h]
  · intro h hmiss
    refine ⟨?_, ?_, ?_⟩ <;> simp [getAvailableStates, h, hmiss]
  · intro h cached hhit resp
    simp [getAvailableStates, h, hhit]
  · intro h resp resp'
    rcases hsc : amapGet sc t with _ | cached
    · have hstore : ∀ v, amapGet (amapSet sc t v) t = some v := fun v => amapGet_set_self sc t v
      cases resp with
      | fetchFailed => simp [getAvailableStates, h, hsc, hstore]
      | missing => simp [getAvailableStates, h, hsc, hstore]
      | states l => simp [getAvailableStates, h, hsc, hstore]
    · simp [getAvailableStates, h, hsc]

/-- Concrete instantiation of `claim_C10_states`: no-connection call, a failed
fetch falling back and caching, and the cached fallback being served on the
next call regardless of the new response. -/
theorem claim_C10_states_witness :
    getAvailableStates baseState [] .fetchFailed "Bug" "New" = (["New"], [])
    ∧ getAvailableStates ⟨⟨some "u", some "t", some "p", []⟩, some ⟨"u", "t"⟩⟩ []
        .fetchFailed "Bug" "New"
      = (fallbackStates "New", amapSet [] "Bug" (fallbackStates "New"))
    ∧ getAvailableStates ⟨⟨some "u", some "t", some "p", []⟩, some ⟨"u", "t"⟩⟩
        (getAvailableStates ⟨⟨some "u", some "t", some "p", []⟩, some ⟨"u", "t"⟩⟩ []
          .fetchFailed "Bug" "New").2
        (.states [some "Proposed"]) "Bug" "New"
      = ((getAvailableStates ⟨⟨some "u", some "t", some "p", []⟩, some ⟨"u", "t"⟩⟩ []
            .fetchFailed "Bug" "New").1,
         (getAvailableStates ⟨⟨some "u", some "t", some "p", []⟩, some ⟨"u", "t"⟩⟩ []
            .fetchFailed "Bug" "New").2) :=
  ⟨(claim_C10_states baseState [] "Bug" "New").1 rfl .fetchFailed,
   ((claim_C10_states ⟨⟨some "u", some "t", some "p", []⟩, some ⟨"u", "t"⟩⟩ []
      "Bug" "New").2.1 (by decide) rfl).1,
   (claim_C10_states ⟨⟨some "u", some "t", some "p", []⟩, some ⟨"u", "t"⟩⟩ []
      "Bug" "New").2.2.2.1 (by decide) .fetchFailed (.states [some "Proposed"])⟩

theorem strAppend_left_cancel {p a b : String} (h : p ++ a = p ++ b) : a = b := by
  apply String.ext
  have hd := congrArg String.data h
  rw [String.data_append, String.data_append] at hd
  exact List.append_cancel_left hd

/-!
### Field-patch documents (`updateWorkItem`, `adoService.ts:384-404`)
-/

/-- One JSON-patch operation `{op, path, value}`; values are modelled as
strings (the tags value is the semicolon-joined complete tag set). -/
structure PatchOp where
  op : String
  path : String
  value : String
  deriving DecidableEq, Repr

/-- The patch document built by `updateWorkItem` (`adoService.ts:389-393`):
`op` is `replace` for `System.Tags` and `add` for every other field; the
`fields` object is modelled as its ordered key/value list. -/
def updateWorkItem_patchDocument (fields : List (String × String)) : List PatchOp :=
  fields.map (fun f =>
    ⟨if f.1 = "System.Tags" then "replace" else "add", "/fields/" ++ f.1, f.2⟩)

/-- Modelled from the spec: the remote system's application of a field patch
operation — "a tag-field patch always fully replaces the remote value"; a
field-path `replace` (or `add`) stores the sent value wholesale under the
field's path. The remote item is keyed by patch path. -/
def applyPatchOp (remote : AMap String) (p : PatchOp) : AMap String :=
  if p.op = "replace" || p.op = "add" then amapSet remote p.path p.value else remote

/-- Sequential application of a patch document to the remote item's fields. -/
def applyPatchDocument (remote : AMap String) (doc : List PatchOp) : AMap String :=
  doc.foldl applyPatchOp remote

/-- Claim C5: in every `updateWorkItem` patch document the operation for
`System.Tags` has op `replace` and the operation for any other field has op
`add` (the op is `replace` exactly for the tags path); consequently a tag
update from `a; b` to `a` leaves the remote tags value exactly `a`. -/
theorem claim_C5_tag_replace :
    (∀ (fields : List (String × String)) (p : PatchOp),
      p ∈ updateWorkItem_patchDocument fields →
        (p.op = "replace" ↔ p.path = "/fields/System.Tags")
        ∧ (p.op = "replace" ∨ p.op = "add"))
    ∧ amapGet (applyPatchDocument [("/fields/System.Tags", "a; b")]
        (updateWorkItem_patchDocument [("System.Tags", "a")])) "/fields/System.Tags"
      = some "a" := by
  constructor
  · intro fields p hp
    rcases List.mem_map.mp hp with ⟨f, _, hf⟩
    subst hf
    by_cases ht : f.1 = "System.Tags"
    · simp [ht]
    · have hpath : ("/fields/" ++ f.1 = "/fields/" ++ "System.Tags") ↔ False := by
        constructor
        · intro h
          exact ht (strAppend_left_cancel h)
        · exact False.elim
      constructor
      · simpa [ht] using fun h => (hpath.mp h)
      · simp [ht]
  · rfl

/-- Concrete instantiation of `claim_C5_tag_replace` on the two-field document
`{System.Tags: "a", System.Title: "T"}`. -/
theorem claim_C5_tag_replace_witness :
    ((PatchOp.mk "replace" "/fields/System.Tags" "a").op = "replace"
      ↔ (PatchOp.mk "replace" "/fields/System.Tags" "a").path = "/fields/System.Tags")
    ∧ ((PatchOp.mk "replace" "/fields/System.Tags" "a").op = "replace"
      ∨ (PatchOp.mk "replace" "/fields/System.Tags" "a").op = "add") :=
  (claim_C5_tag_replace.1 [("System.Tags", "a"), ("System.Title", "T")]
    ⟨"replace", "/fields/System.Tags", "a"⟩ (by decide))

/-!
### WIQL escaping and the search-text branch
(`escapeWiql`, `adoService.ts:13-16`; WHERE clause, `adoService.ts:128-156`
and `adoService.ts:213-238`)
-/

/-- Character-level body of `value.replace(/'/g, "''")`. -/
def wiqlEscL : List Char → List Char
  | [] => []
  | c :: cs => (if c = '\'' then ['\'', '\''] else [c]) ++ wiqlEscL cs

/-- `escapeWiql` (`adoService.ts:13-16`): double every apostrophe, leave every
other character unchanged. -/
def escapeWiql (value : String) : String := ⟨wiqlEscL value.data⟩

/-- The spec's un-doubling: collapse each doubled apostrophe back to one,
scanning left to right. -/
def undoubleL : List Char → List Char
  | [] => []
  | [c] => [c]
  | c1 :: c2 :: cs =>
    if c1 = '\'' then
      if c2 = '\'' then '\'' :: undoubleL cs
      else c1 :: undoubleL (c2 :: cs)
    else c1 :: undoubleL (c2 :: cs)

/-- Un-doubling on strings. -/
def unDoubleQuotes (s : String) : String := ⟨undoubleL s.data⟩

/-- A WIQL literal body is well formed when every apostrophe is immediately
followed by a second one (no lone closing quote can terminate the literal
early). -/
def noLoneQuoteL : List Char → Bool
  | [] => true
  | [c] => !(c = '\'' : Bool)
  | c1 :: c2 :: cs =>
    if c1 = '\'' then
      if c2 = '\'' then noLoneQuoteL cs
      else false
    else noLoneQuoteL (c2 :: cs)

theorem undoubleL_cons_ne (c : Char) (xs : List Char) (h : c ≠ '\'') :
    undoubleL (c :: xs) = c :: undoubleL xs := by
  cases xs with
  | nil => rfl
  | cons x xs' => simp [undoubleL, h]

theorem noLoneQuoteL_cons_ne (c : Char) (xs : List Char) (h : c ≠ '\'') :
    noLoneQuoteL (c :: xs) = noLoneQuoteL xs := by
  cases xs with
  | nil => simp [noLoneQuoteL, h]
  | cons x xs' => simp [noLoneQuoteL, h]

theorem undoubleL_wiqlEscL (l : List Char) : undoubleL (wiqlEscL l) = l := by
  induction l with
  | nil => rfl
  | cons c cs ih =>
    by_cases hc : c = '\''
    · subst hc
      simp [wiqlEscL, undoubleL, ih]
    · rw [wiqlEscL, if_neg hc, List.singleton_append, undoubleL_cons_ne c _ hc, ih]

theorem noLoneQuoteL_wiqlEscL (l : List Char) : noLoneQuoteL (wiqlEscL l) = true := by
  induction l with
  | nil => rfl
  | cons c cs ih =>
    by_cases hc : c = '\''
    · subst hc
      simp [wiqlEscL, noLoneQuoteL, ih]
    · rw [wiqlEscL, if_neg hc, List.singleton_append, noLoneQuoteL_cons_ne c _ hc, ih]

/-- Full-match test `/^\d+$/.test(searchText)` (JS `\d` is `[0-9]`). -/
def isDigitString (s : String) : Bool :=
  !s.data.isEmpty && s.data.all (fun c => c.isDigit)

/-- The mathematical integer value `parseInt(searchText, 10)` reads off a pure
digit string. -/
def digitsToNat (s : String) : Nat :=
  s.data.foldl (fun a c => a * 10 + (c.toNat - 48)) 0

/-- `isFinite(parseInt(s, 10))` for a pure digit string: `parseInt` rounds the
mathematical value to an IEEE-754 double, which overflows to `Infinity`
exactly when the value is at least `2^1024 - 2^970` (round-half-to-even at the
top of the double range). -/
def parseIntIsFinite (s : String) : Bool :=
  digitsToNat s < 2 ^ 1024 - 2 ^ 970

/-- The search-text fragment appended to the WHERE clause
(`adoService.ts:132-141`, and identically with a `[Target].` prefix at
`adoService.ts:215-223`). The interpolation of `parsedId` is modelled as the
exact decimal numeral (exact for every value below 2^53, hence for every
representable work-item id). -/
def searchCondition (searchText : String) : String :=
  if isDigitString searchText && parseIntIsFinite searchText then
    " AND [System.Id] = " ++ toString (digitsToNat searchText)
  else
    " AND [System.Title] CONTAINS '" ++ escapeWiql searchText ++ "'"

/-- The iteration filter fragment (`adoService.ts:143-145`). -/
def iterationCondition (iteration : String) : String :=
  " AND [System.IterationPath] UNDER '" ++ escapeWiql iteration ++ "'"

/-- `Array.prototype.join(' AND ')`. -/
def joinAnd : List String → String
  | [] => ""
  | [x] => x
  | x :: xs => x ++ " AND " ++ joinAnd xs

/-- The tags filter fragment (`adoService.ts:147-152`): one `CONTAINS`
predicate per requested tag, AND-joined. -/
def tagsCondition (tags : List String) : String :=
  " AND (" ++ joinAnd (tags.map (fun tag =>
    "([System.Tags] CONTAINS '" ++ escapeWiql tag ++ "')")) ++ ")"

/-- The assignee filter fragment (`adoService.ts:154-156`). -/
def assignedToCondition (assignedTo : String) : String :=
  " AND [System.AssignedTo] CONTAINS '" ++ escapeWiql assignedTo ++ "'"

/-- Claim C8: un-doubling the apostrophes of an escaped literal reproduces the
original string exactly; the escaping maps `'` to `''` and any other character
to itself; every escaped literal is free of lone apostrophes; and a search
text of `O'Brien` produces the well-formed fragment
`AND [System.Title] CONTAINS 'O''Brien'`. -/
theorem claim_C8_escaping_roundtrip :
    (∀ s : String, unDoubleQuotes (escapeWiql s) = s)
    ∧ (∀ c : Char, escapeWiql ⟨[c]⟩ = if c = '\'' then "''" else ⟨[c]⟩)
    ∧ (∀ s : String, noLoneQuoteL (escapeWiql s).data = true)
    ∧ escapeWiql "O'Brien" = "O''Brien"
    ∧ searchCondition "O'Brien" = " AND [System.Title] CONTAINS 'O''Brien'" := by
  refine ⟨?_, ?_, ?_, by decide, by decide⟩
  · intro s
    apply String.ext
    exact undoubleL_wiqlEscL s.data
  · intro c
    by_cases hc : c = '\''
    · subst hc
      decide
    · apply String.ext
      simp [escapeWiql, wiqlEscL, hc]
  · intro s
    exact noLoneQuoteL_wiqlEscL s.data

theorem titleClause_ne_idClause (e : String) (n : Nat) :
    " AND [System.Title] CONTAINS '" ++ e ++ "'" ≠ " AND [System.Id] = " ++ toString n := by
  intro h
  have hd := congrArg String.data h
  rw [String.data_append, String.data_append, String.data_append] at hd
  have h14 := congrArg (fun l => l[14]?) hd
  simp only at h14
  have hlen : (14 : Nat) < (" AND [System.Title] CONTAINS '".data ++ e.data).length := by
    rw [List.length_append]
    have h30 : (" AND [System.Title] CONTAINS '".data).length = 30 := by decide
    omega
  rw [List.getElem?_append_left hlen] at h14
  rw [List.getElem?_append_left (by decide)] at h14
  rw [List.getElem?_append_left (by decide)] at h14
  exact absurd h14 (by decide)

set_option maxRecDepth 40000 in
/-- Counterexample to claim C9 as stated: a 309-digit search text matches
`^\d+$` in full, yet the generated fragment is a title-contains predicate, not
an id-equality predicate — `parseInt` returns `Infinity` for it, so the
`isFinite(parsedId)` conjunct of the branch condition fails. -/
theorem claim_C9_counterexample :
    isDigitString ⟨List.replicate 309 '9'⟩ = true
    ∧ searchCondition ⟨List.replicate 309 '9'⟩
      = " AND [System.Title] CONTAINS '" ++ (⟨List.replicate 309 '9'⟩ : String) ++ "'"
    ∧ searchCondition ⟨List.replicate 309 '9'⟩
      ≠ " AND [System.Id] = " ++ toString (digitsToNat ⟨List.replicate 309 '9'⟩) := by
  refine ⟨by decide, by decide, titleClause_ne_idClause _ _⟩

set_option maxRecDepth 40000 in
/-- Claim C9 (amended): the generated fragment is a numeric id-equality
predicate exactly when the search text matches `^\d+$` in full AND its value
stays below the IEEE-754 double overflow threshold (so that
`isFinite(parseInt(searchText))` holds); otherwise it is a title-contains
predicate on the escaped literal. In particular `"123"` yields
`[System.Id] = 123` while `"123abc"` and `"bug123"` yield title-contains
predicates. -/
theorem claim_C9_id_vs_title :
    (∀ s : String,
      (∃ n : Nat, searchCondition s = " AND [System.Id] = " ++ toString n)
        ↔ (isDigitString s = true ∧ parseIntIsFinite s = true))
    ∧ searchCondition "123" = " AND [System.Id] = 123"
    ∧ searchCondition "123abc" = " AND [System.Title] CONTAINS '123abc'"
    ∧ searchCondition "bug123" = " AND [System.Title] CONTAINS 'bug123'" := by
  refine ⟨?_, by decide, by decide, by decide⟩
  intro s
  by_cases h : (isDigitString s && parseIntIsFinite s) = true
  · constructor
    · intro _
      exact ⟨(Bool.and_eq_true _ _).mp h |>.1, (Bool.and_eq_true _ _).mp h |>.2⟩
    · intro _
      exact ⟨digitsToNat s, by rw [searchCondition, if_pos h]⟩
  · constructor
    · rintro ⟨n, hn⟩
      rw [searchCondition, if_neg h] at hn
      exact absurd hn (titleClause_ne_idClause (escapeWiql s) n)
    · rintro ⟨h1, h2⟩
      exact absurd (by simp [h1, h2] : (isDigitString s && parseIntIsFinite s) = true) h

/-!
### Filter sets and cache keys (`adoService.ts:107-120`, `adoService.ts:204-208`)

The filter object's cache-key serialization is `JSON.stringify(filters)`.
Every filter object in the program is built by
`AdoBacklogProvider.getfiltersForService` (`adoBacklogProvider.ts:152-159`),
which creates the properties in the order `searchText`, `iteration`, `tags`,
`assignedTo`; `JSON.stringify` emits the present (non-`undefined`) fields in
that insertion order, comma-separated inside braces, strings quoted with `"`
and `\` escaped. (The `\uXXXX` escapes JSON applies to control characters are
elided: no character below `U+0020` gains a distinct model here.)
-/

/-- The optional filter set accepted by `getEpicsForTeam` and
`getChildWorkItems` (`adoService.ts:107-112`): each field is absent
(`undefined`) or present. -/
structure Filters where
  searchText : Option String
  iteration : Option String
  tags : Option (List String)
  assignedTo : Option String
  deriving DecidableEq, Repr

/-- JSON escaping of one character inside a string literal. -/
def escChar (c : Char) : List Char :=
  if c = '"' then ['\\', '"']
  else if c = '\\' then ['\\', '\\']
  else [c]

/-- JSON escaping of a string body. -/
def escL : List Char → List Char
  | [] => []
  | c :: cs => escChar c ++ escL cs

/-- A JSON string literal: `"` body `"`. -/
def quoteL (l : List Char) : List Char := '"' :: escL l ++ ['"']

/-- One serialized string-valued field: `"name":"value"`. -/
def strFieldL (name : String) (v : String) : List Char :=
  '"' :: name.data ++ '"' :: ':' :: quoteL v.data

/-- The comma-joined bodies of a JSON string array. -/
def tagsEncL : List (List Char) → List Char
  | [] => []
  | t :: ts => quoteL t ++ (match ts with | [] => [] | _ :: _ => ',' :: tagsEncL ts)

/-- The serialized `tags` field: `"tags":["a","b"]`. -/
def tagsFieldL (ts : List String) : List Char :=
  '"' :: "tags".data ++ '"' :: ':' :: '[' :: (tagsEncL (ts.map String.data) ++ [']'])

/-- An optional field rendered with its leading separator comma (dropped for
the first present field by `serL`). -/
def optBlock {β : Type} (enc : β → List Char) : Option β → List Char
  | none => []
  | some v => ',' :: enc v

/-- All four optional fields, in insertion order, each with a leading comma. -/
def preL (f : Filters) : List Char :=
  optBlock (strFieldL "searchText") f.searchText
  ++ optBlock (strFieldL "iteration") f.iteration
  ++ optBlock tagsFieldL f.tags
  ++ optBlock (strFieldL "assignedTo") f.assignedTo

/-- The serialized filter object: `{` fields `}` with the first field's
leading comma dropped. -/
def serL (f : Filters) : List Char := '\x7b' :: ((preL f).tail ++ ['\x7d'])

/-- `JSON.stringify(filters)` for a defined filter object. -/
def stringifyFilters (f : Filters) : String := ⟨serL f⟩

/-- `filters ? JSON.stringify(filters) : 'nofilters'`
(`adoService.ts:117`, `adoService.ts:205`). -/
def filterKey : Option Filters → String
  | some f => stringifyFilters f
  | none => "nofilters"

/-- The cache key `` `<scopeTag>_<filterKey>` `` shared by the epic and
children queries. -/
def buildCacheKey (scopeTag : String) (filters : Option Filters) : String :=
  scopeTag ++ "_" ++ filterKey filters

/-- `` `epics_${areaPathName}_${filterKey}` `` (`adoService.ts:118`). -/
def epicsCacheKey (areaPathName : String) (filters : Option Filters) : String :=
  buildCacheKey ("epics_" ++ areaPathName) filters

/-- `` `children_${parentId}_${filterKey}` `` (`adoService.ts:206`). -/
def childrenCacheKey (parentId : Nat) (filters : Option Filters) : String :=
  buildCacheKey ("children_" ++ toString parentId) filters

/-!
### The batch children path (`getBatchChildWorkItems`, `adoService.ts:281-315`)
-/

/-- The cache key probed per parent by `getBatchChildWorkItems`
(`adoService.ts:289`): `` `children_${parentId}` `` — with no filter
segment. -/
def batchProbeKey (parentId : Nat) : String := "children_" ++ toString parentId

/-- The cache-consultation partition of `getBatchChildWorkItems`
(`adoService.ts:287-295`): parents whose probe hits are answered from cache,
the rest are collected into `uncachedParents` and each is fetched via
`getChildWorkItems(parentId)` (`adoService.ts:302-307`). -/
def getBatchChildWorkItems_partition {α : Type} (c : Cache α) (now : Int)
    (parentIds : List Nat) : List (Nat × α) × List Nat :=
  parentIds.foldl (fun acc pid =>
    match getCached c now (batchProbeKey pid) with
    | some d => (acc.1 ++ [(pid, d)], acc.2)
    | none => (acc.1, acc.2 ++ [pid])) ([], [])

/-- Claim C3, the code's divergence from it: the key probed by the batch path
differs from every key `getChildWorkItems` ever writes for that parent (all of
which carry a `_<filterKey>` segment, `_nofilters` in the unfiltered case).
Consequently, with the unfiltered children list for parent `7` freshly cached
under `children_7_nofilters`, the batch partition still classifies parent `7`
as uncached and issues a fetch. -/
theorem claim_C3_batch_probes_unwritten_key :
    (∀ (parentId : Nat) (filters : Option Filters),
      childrenCacheKey parentId filters ≠ batchProbeKey parentId)
    ∧ getBatchChildWorkItems_partition
        (setCache ([] : Cache (List WorkItem)) (childrenCacheKey 7 none)
          [⟨42, "Story title"⟩] 0) 0 [7]
      = ([], [7]) := by
  constructor
  · intro parentId filters heq
    have hd := congrArg (fun s => s.data.length) heq
    simp only [childrenCacheKey, buildCacheKey, batchProbeKey,
      String.data_append, List.length_append, List.length_singleton] at hd
    omega
  · rfl

/-!
### Unique decodability of the serialized filter object

`JSON.stringify` is injective on filter objects: the following lemmas recover
each serialized component from a serialization followed by a terminator
character that no escape sequence can produce.
-/

theorem escChar_quote : escChar '"' = ['\\', '"'] := rfl

theorem escChar_backslash : escChar '\\' = ['\\', '\\'] := rfl

theorem escChar_other (d : Char) (h1 : d ≠ '"') (h2 : d ≠ '\\') : escChar d = [d] := by
  simp [escChar, h1, h2]

theorem escChar_head (d : Char) : ∃ e t, escChar d = e :: t ∧ e ≠ '"' := by
  by_cases h1 : d = '"'
  · subst h1; exact ⟨'\\', ['"'], rfl, by decide⟩
  · by_cases h2 : d = '\\'
    · subst h2; exact ⟨'\\', ['\\'], rfl, by decide⟩
    · exact ⟨d, [], escChar_other d h1 h2, h1⟩

theorem escChar_append_inj (c d : Char) (x y : List Char)
    (h : escChar c ++ x = escChar d ++ y) : c = d ∧ x = y := by
  by_cases hc1 : c = '"'
  · subst hc1
    by_cases hd1 : d = '"'
    · subst hd1
      rw [escChar_quote] at h
      simp only [List.cons_append, List.nil_append] at h
      injection h with _ h; injection h with _ h
      exact ⟨rfl, h⟩
    · by_cases hd2 : d = '\\'
      · subst hd2
        rw [escChar_quote, escChar_backslash] at h
        simp only [List.cons_append, List.nil_append] at h
        injection h with _ h; injection h with h1 _
        exact absurd h1 (by decide)
      · rw [escChar_quote, escChar_other d hd1 hd2] at h
        simp only [List.cons_append, List.nil_append] at h
        injection h with h1 _
        exact absurd h1.symm hd2
  · by_cases hc2 : c = '\\'
    · subst hc2
      by_cases hd1 : d = '"'
      · subst hd1
        rw [escChar_backslash, escChar_quote] at h
        simp only [List.cons_append, List.nil_append] at h
        injection h with _ h; injection h with h1 _
        exact absurd h1 (by decide)
      · by_cases hd2 : d = '\\'
        · subst hd2
          rw [escChar_backslash] at h
          simp only [List.cons_append, List.nil_append] at h
          injection h with _ h; injection h with _ h
          exact ⟨rfl, h⟩
        · rw [escChar_backslash, escChar_other d hd1 hd2] at h
          simp only [List.cons_append, List.nil_append] at h
          injection h with h1 _
          exact absurd h1.symm hd2
    · by_cases hd1 : d = '"'
      · subst hd1
        rw [escChar_quote, escChar_other c hc1 hc2] at h
        simp only [List.cons_append, List.nil_append] at h
        injection h with h1 _
        exact absurd h1 hc2
      · by_cases hd2 : d = '\\'
        · subst hd2
          rw [escChar_backslash, escChar_other c hc1 hc2] at h
          simp only [List.cons_append, List.nil_append] at h
          injection h with h1 _
          exact absurd h1 hc2
        · rw [escChar_other c hc1 hc2, escChar_other d hd1 hd2] at h
          simp only [List.cons_append, List.nil_append] at h
          injection h with h1 h
          exact ⟨h1, h⟩

/-- A JSON-escaped body followed by its closing quote is uniquely decodable:
no escape sequence starts with an unescaped `"`. -/
theorem escL_quote_eq : ∀ (s1 s2 r1 r2 : List Char),
    escL s1 ++ '"' :: r1 = escL s2 ++ '"' :: r2 → s1 = s2 ∧ r1 = r2 := by
  intro s1
  induction s1 with
  | nil =>
    intro s2 r1 r2 h
    cases s2 with
    | nil =>
      simp only [escL, List.nil_append] at h
      injection h with _ h
      exact ⟨rfl, h⟩
    | cons d ds =>
      exfalso
      obtain ⟨e, t, he, hne⟩ := escChar_head d
      simp only [escL, List.nil_append, List.cons_append, List.append_assoc] at h
      rw [he] at h
      simp only [List.cons_append] at h
      injection h with h1 _
      exact hne h1.symm
  | cons c cs ih =>
    intro s2 r1 r2 h
    cases s2 with
    | nil =>
      exfalso
      obtain ⟨e, t, he, hne⟩ := escChar_head c
      simp only [escL, List.nil_append, List.cons_append, List.append_assoc] at h
      rw [he] at h
      simp only [List.cons_append] at h
      injection h with h1 _
      exact hne h1
    | cons d ds =>
      simp only [escL, List.append_assoc] at h
      obtain ⟨hcd, h2⟩ := escChar_append_inj c d _ _ h
      obtain ⟨hs, hr⟩ := ih ds r1 r2 h2
      exact ⟨by rw [hcd, hs], hr⟩

/-- The separator emitted after one serialized tag: nothing after the last,
a comma plus the rest otherwise. -/
def tagsSepL (ts : List (List Char)) : List Char :=
  match ts with
  | [] => []
  | _ :: _ => ',' :: tagsEncL ts

theorem tagsEncL_cons (t : List Char) (ts : List (List Char)) :
    tagsEncL (t :: ts) = quoteL t ++ tagsSepL ts := by
  cases ts <;> rfl

theorem tagsEncL_cons_append (t : List Char) (ts : List (List Char)) (X : List Char) :
    tagsEncL (t :: ts) ++ X = '"' :: (escL t ++ '"' :: (tagsSepL ts ++ X)) := by
  rw [tagsEncL_cons, quoteL]
  simp [List.append_assoc]

/-- The comma-joined serialized tags followed by the closing bracket are
uniquely decodable. -/
theorem tagsEncL_bracket_eq : ∀ (ts1 ts2 : List (List Char)) (r1 r2 : List Char),
    tagsEncL ts1 ++ ']' :: r1 = tagsEncL ts2 ++ ']' :: r2 → ts1 = ts2 ∧ r1 = r2 := by
  intro ts1
  induction ts1 with
  | nil =>
    intro ts2 r1 r2 h
    cases ts2 with
    | nil =>
      simp only [tagsEncL, List.nil_append] at h
      injection h with _ h
      exact ⟨rfl, h⟩
    | cons t ts =>
      exfalso
      rw [tagsEncL_cons_append] at h
      simp only [tagsEncL, List.nil_append] at h
      injection h with h1 _
      exact absurd h1 (by decide)
  | cons t1 ts1 ih =>
    intro ts2 r1 r2 h
    cases ts2 with
    | nil =>
      exfalso
      rw [tagsEncL_cons_append] at h
      simp only [tagsEncL, List.nil_append] at h
      injection h with h1 _
      exact absurd h1 (by decide)
    | cons t2 ts2' =>
      rw [tagsEncL_cons_append, tagsEncL_cons_append] at h
      injection h with _ h
      obtain ⟨ht, hsep⟩ := escL_quote_eq t1 t2 _ _ h
      cases hts1 : ts1 with
      | nil =>
        cases hts2 : ts2' with
        | nil =>
          subst hts1; subst hts2
          simp only [tagsSepL, List.nil_append] at hsep
          injection hsep with _ hsep
          exact ⟨by rw [ht], hsep⟩
        | cons x xs =>
          exfalso
          subst hts1; subst hts2
          simp only [tagsSepL, List.nil_append, List.cons_append] at hsep
          injection hsep with h1 _
          exact absurd h1 (by decide)
      | cons x xs =>
        cases hts2 : ts2' with
        | nil =>
          exfalso
          subst hts1; subst hts2
          simp only [tagsSepL, List.nil_append, List.cons_append] at hsep
          injection hsep with h1 _
          exact absurd h1 (by decide)
        | cons y ys =>
          subst hts1; subst hts2
          simp only [tagsSepL, List.cons_append] at hsep
          injection hsep with _ hsep
          obtain ⟨hts, hr⟩ := ih _ r1 r2 hsep
          exact ⟨by rw [ht, hts], hr⟩

theorem strField_block_head (nm : String) (n0 : Char) (nr : List Char)
    (hnm : nm.data = n0 :: nr) (v : String) (X : List Char) :
    optBlock (strFieldL nm) (some v) ++ X
      = ',' :: '"' :: n0 :: (nr ++ ('"' :: ':' :: '"' :: (escL v.data ++ '"' :: X))) := by
  simp [optBlock, strFieldL, quoteL, hnm, List.append_assoc]

theorem tagsField_block_head (ts : List String) (X : List Char) :
    optBlock tagsFieldL (some ts) ++ X
      = ',' :: '"' :: 't' :: ("ags".data
          ++ ('"' :: ':' :: '[' :: (tagsEncL (ts.map String.data) ++ ']' :: X))) := by
  have htags : "tags".data = 't' :: "ags".data := rfl
  simp [optBlock, tagsFieldL, htags, List.append_assoc]

theorem strField_block_ne (nm : String) (n0 : Char) (nr : List Char)
    (hnm : nm.data = n0 :: nr) (v : String) (X Y : List Char)
    (hY : Y = ['\x7d'] ∨ ∃ c q, Y = ',' :: '"' :: c :: q ∧ c ≠ n0) :
    optBlock (strFieldL nm) (some v) ++ X ≠ Y := by
  intro h
  rw [strField_block_head nm n0 nr hnm v X] at h
  rcases hY with hY | ⟨c, q, hY, hc⟩
  · rw [hY] at h
    injection h with h1 _
    exact absurd h1 (by decide)
  · rw [hY] at h
    injection h with _ h; injection h with _ h; injection h with h1 _
    exact hc h1.symm

theorem tagsField_block_ne (ts : List String) (X Y : List Char)
    (hY : Y = ['\x7d'] ∨ ∃ c q, Y = ',' :: '"' :: c :: q ∧ c ≠ 't') :
    optBlock tagsFieldL (some ts) ++ X ≠ Y := by
  intro h
  rw [tagsField_block_head ts X] at h
  rcases hY with hY | ⟨c, q, hY, hc⟩
  · rw [hY] at h
    injection h with h1 _
    exact absurd h1 (by decide)
  · rw [hY] at h
    injection h with _ h; injection h with _ h; injection h with h1 _
    exact hc h1.symm

theorem optBlock_strField_peel (nm : String) (n0 : Char) (nr : List Char)
    (hnm : nm.data = n0 :: nr) (o1 o2 : Option String) (X1 X2 : List Char)
    (hX1 : X1 = ['\x7d'] ∨ ∃ c q, X1 = ',' :: '"' :: c :: q ∧ c ≠ n0)
    (hX2 : X2 = ['\x7d'] ∨ ∃ c q, X2 = ',' :: '"' :: c :: q ∧ c ≠ n0)
    (h : optBlock (strFieldL nm) o1 ++ X1 = optBlock (strFieldL nm) o2 ++ X2) :
    o1 = o2 ∧ X1 = X2 := by
  cases o1 with
  | none =>
    cases o2 with
    | none =>
      simp only [optBlock, List.nil_append] at h
      exact ⟨rfl, h⟩
    | some v2 =>
      exfalso
      simp only [optBlock, List.nil_append] at h
      exact strField_block_ne nm n0 nr hnm v2 X2 X1 hX1 h.symm
  | some v1 =>
    cases o2 with
    | none =>
      exfalso
      simp only [optBlock, List.nil_append] at h
      exact strField_block_ne nm n0 nr hnm v1 X1 X2 hX2 h
    | some v2 =>
      rw [strField_block_head nm n0 nr hnm v1 X1,
          strField_block_head nm n0 nr hnm v2 X2] at h
      injection h with _ h; injection h with _ h; injection h with _ h
      have h2 := List.append_cancel_left h
      injection h2 with _ h2; injection h2 with _ h2; injection h2 with _ h2
      obtain ⟨hv, hX⟩ := escL_quote_eq v1.data v2.data X1 X2 h2
      exact ⟨by rw [String.ext hv], hX⟩

theorem listStr_data_inj : ∀ (a b : List String), a.map String.data = b.map String.data → a = b := by
  intro a
  induction a with
  | nil =>
    intro b h
    cases b with
    | nil => rfl
    | cons y ys => simp at h
  | cons x xs ih =>
    intro b h
    cases b with
    | nil => simp at h
    | cons y ys =>
      simp only [List.map_cons, List.cons.injEq] at h
      rw [String.ext h.1, ih ys h.2]

theorem optBlock_tagsField_peel (o1 o2 : Option (List String)) (X1 X2 : List Char)
    (hX1 : X1 = ['\x7d'] ∨ ∃ c q, X1 = ',' :: '"' :: c :: q ∧ c ≠ 't')
    (hX2 : X2 = ['\x7d'] ∨ ∃ c q, X2 = ',' :: '"' :: c :: q ∧ c ≠ 't')
    (h : optBlock tagsFieldL o1 ++ X1 = optBlock tagsFieldL o2 ++ X2) :
    o1 = o2 ∧ X1 = X2 := by
  cases o1 with
  | none =>
    cases o2 with
    | none =>
      simp only [optBlock, List.nil_append] at h
      exact ⟨rfl, h⟩
    | some ts2 =>
      exfalso
      simp only [optBlock, List.nil_append] at h
      exact tagsField_block_ne ts2 X2 X1 hX1 h.symm
  | some ts1 =>
    cases o2 with
    | none =>
      exfalso
      simp only [optBlock, List.nil_append] at h
      exact tagsField_block_ne ts1 X1 X2 hX2 h
    | some ts2 =>
      rw [tagsField_block_head ts1 X1, tagsField_block_head ts2 X2] at h
      injection h with _ h; injection h with _ h; injection h with _ h
      have h2 := List.append_cancel_left h
      injection h2 with _ h2; injection h2 with _ h2; injection h2 with _ h2
      obtain ⟨hm, hX⟩ := tagsEncL_bracket_eq (ts1.map String.data) (ts2.map String.data) X1 X2 h2
      exact ⟨by rw [listStr_data_inj ts1 ts2 hm], hX⟩

theorem restA_shape (f : Filters) :
    optBlock (strFieldL "assignedTo") f.assignedTo ++ ['\x7d'] = ['\x7d']
    ∨ ∃ c q, optBlock (strFieldL "assignedTo") f.assignedTo ++ ['\x7d']
        = ',' :: '"' :: c :: q ∧ (c = 'a') := by
  cases ha : f.assignedTo with
  | none => left; rfl
  | some v =>
    exact Or.inr ⟨'a', _, strField_block_head "assignedTo" 'a' "ssignedTo".data rfl v ['\x7d'], rfl⟩

theorem restTA_shape (f : Filters) :
    optBlock tagsFieldL f.tags
        ++ (optBlock (strFieldL "assignedTo") f.assignedTo ++ ['\x7d']) = ['\x7d']
    ∨ ∃ c q, optBlock tagsFieldL f.tags
        ++ (optBlock (strFieldL "assignedTo") f.assignedTo ++ ['\x7d'])
        = ',' :: '"' :: c :: q ∧ (c = 't' ∨ c = 'a') := by
  cases ht : f.tags with
  | none =>
    simp only [optBlock, List.nil_append]
    rcases restA_shape f with h | ⟨c, q, h, hc⟩
    · exact Or.inl h
    · exact Or.inr ⟨c, q, h, Or.inr hc⟩
  | some ts =>
    exact Or.inr ⟨'t', _, tagsField_block_head ts _, Or.inl rfl⟩

theorem restITA_shape (f : Filters) :
    optBlock (strFieldL "iteration") f.iteration
        ++ (optBlock tagsFieldL f.tags
          ++ (optBlock (strFieldL "assignedTo") f.assignedTo ++ ['\x7d'])) = ['\x7d']
    ∨ ∃ c q, optBlock (strFieldL "iteration") f.iteration
        ++ (optBlock tagsFieldL f.tags
          ++ (optBlock (strFieldL "assignedTo") f.assignedTo ++ ['\x7d']))
        = ',' :: '"' :: c :: q ∧ (c = 'i' ∨ c = 't' ∨ c = 'a') := by
  cases hi : f.iteration with
  | none =>
    simp only [optBlock, List.nil_append]
    rcases restTA_shape f with h | ⟨c, q, h, hc⟩
    · exact Or.inl h
    · exact Or.inr ⟨c, q, h, Or.inr hc⟩
  | some v =>
    exact Or.inr ⟨'i', _,
      strField_block_head "iteration" 'i' "teration".data rfl v _, Or.inl rfl⟩

theorem preL_append_brace (f : Filters) :
    preL f ++ ['\x7d'] = optBlock (strFieldL "searchText") f.searchText
      ++ (optBlock (strFieldL "iteration") f.iteration
      ++ (optBlock tagsFieldL f.tags
      ++ (optBlock (strFieldL "assignedTo") f.assignedTo ++ ['\x7d']))) := by
  simp [preL, List.append_assoc]

theorem preL_shape (f : Filters) :
    preL f = [] ∨ ∃ q, preL f = ',' :: '"' :: q := by
  rw [preL]
  cases hs : f.searchText with
  | some v =>
    right
    exact ⟨_, by
      rw [List.append_assoc, List.append_assoc]
      exact strField_block_head "searchText" 's' "earchText".data rfl v _⟩
  | none =>
    simp only [optBlock, List.nil_append]
    cases hi : f.iteration with
    | some v =>
      right
      exact ⟨_, by
        rw [List.append_assoc]
        exact strField_block_head "iteration" 'i' "teration".data rfl v _⟩
    | none =>
      simp only [optBlock, List.nil_append]
      cases ht : f.tags with
      | some ts =>
        right
        exact ⟨_, tagsField_block_head ts _⟩
      | none =>
        simp only [optBlock, List.nil_append]
        cases ha : f.assignedTo with
        | some v =>
          right
          exact ⟨_, by
            have hb := strField_block_head "assignedTo" 'a' "ssignedTo".data rfl v []
            rw [List.append_nil] at hb
            exact hb⟩
        | none => left; rfl

/-- `JSON.stringify` is injective on filter objects. -/
theorem serL_inj (f1 f2 : Filters) (h : serL f1 = serL f2) : f1 = f2 := by
  have htail : (preL f1).tail ++ ['\x7d'] = (preL f2).tail ++ ['\x7d'] := by
    rw [serL, serL] at h
    injection h
  have hpre : preL f1 ++ ['\x7d'] = preL f2 ++ ['\x7d'] := by
    rcases preL_shape f1 with h1 | ⟨q1, h1⟩ <;> rcases preL_shape f2 with h2 | ⟨q2, h2⟩
    · rw [h1, h2]
    · exfalso
      rw [h1, h2] at htail
      simp only [List.tail_nil, List.tail_cons, List.nil_append, List.cons_append] at htail
      injection htail with h1 _
      exact absurd h1 (by decide)
    · exfalso
      rw [h1, h2] at htail
      simp only [List.tail_nil, List.tail_cons, List.nil_append, List.cons_append] at htail
      injection htail with h1 _
      exact absurd h1 (by decide)
    · rw [h1, h2] at htail ⊢
      simp only [List.tail_cons, List.cons_append] at htail ⊢
      injection htail with _ htail
      rw [htail]
  rw [preL_append_brace f1, preL_append_brace f2] at hpre
  have hX1s : optBlock (strFieldL "iteration") f1.iteration
      ++ (optBlock tagsFieldL f1.tags
        ++ (optBlock (strFieldL "assignedTo") f1.assignedTo ++ ['\x7d'])) = ['\x7d']
      ∨ ∃ c q, optBlock (strFieldL "iteration") f1.iteration
      ++ (optBlock tagsFieldL f1.tags
        ++ (optBlock (strFieldL "assignedTo") f1.assignedTo ++ ['\x7d']))
        = ',' :: '"' :: c :: q ∧ c ≠ 's' := by
    rcases restITA_shape f1 with h | ⟨c, q, hq, hc⟩
    · exact Or.inl h
    · exact Or.inr ⟨c, q, hq, by rcases hc with h | h | h <;> subst h <;> decide⟩
  have hX2s : optBlock (strFieldL "iteration") f2.iteration
      ++ (optBlock tagsFieldL f2.tags
        ++ (optBlock (strFieldL "assignedTo") f2.assignedTo ++ ['\x7d'])) = ['\x7d']
      ∨ ∃ c q, optBlock (strFieldL "iteration") f2.iteration
      ++ (optBlock tagsFieldL f2.tags
        ++ (optBlock (strFieldL "assignedTo") f2.assignedTo ++ ['\x7d']))
        = ',' :: '"' :: c :: q ∧ c ≠ 's' := by
    rcases restITA_shape f2 with h | ⟨c, q, hq, hc⟩
    · exact Or.inl h
    · exact Or.inr ⟨c, q, hq, by rcases hc with h | h | h <;> subst h <;> decide⟩
  obtain ⟨hsearch, h2⟩ := optBlock_strField_peel "searchText" 's' "earchText".data rfl
    f1.searchText f2.searchText _ _ hX1s hX2s hpre
  have hY1s : optBlock tagsFieldL f1.tags
        ++ (optBlock (strFieldL "assignedTo") f1.assignedTo ++ ['\x7d']) = ['\x7d']
      ∨ ∃ c q, optBlock tagsFieldL f1.tags
        ++ (optBlock (strFieldL "assignedTo") f1.assignedTo ++ ['\x7d'])
        = ',' :: '"' :: c :: q ∧ c ≠ 'i' := by
    rcases restTA_shape f1 with h | ⟨c, q, hq, hc⟩
    · exact Or.inl h
    · exact Or.inr ⟨c, q, hq, by rcases hc with h | h <;> subst h <;> decide⟩
  have hY2s : optBlock tagsFieldL f2.tags
        ++ (optBlock (strFieldL "assignedTo") f2.assignedTo ++ ['\x7d']) = ['\x7d']
      ∨ ∃ c q, optBlock tagsFieldL f2.tags
        ++ (optBlock (strFieldL "assignedTo") f2.assignedTo ++ ['\x7d'])
        = ',' :: '"' :: c :: q ∧ c ≠ 'i' := by
    rcases restTA_shape f2 with h | ⟨c, q, hq, hc⟩
    · exact Or.inl h
    · exact Or.inr ⟨c, q, hq, by rcases hc with h | h <;> subst h <;> decide⟩
  obtain ⟨hiter, h3⟩ := optBlock_strField_peel "iteration" 'i' "teration".data rfl
    f1.iteration f2.iteration _ _ hY1s hY2s h2
  have hZ1s : optBlock (strFieldL "assignedTo") f1.assignedTo ++ ['\x7d'] = ['\x7d']
      ∨ ∃ c q, optBlock (strFieldL "assignedTo") f1.assignedTo ++ ['\x7d']
        = ',' :: '"' :: c :: q ∧ c ≠ 't' := by
    rcases restA_shape f1 with h | ⟨c, q, hq, hc⟩
    · exact Or.inl h
    · exact Or.inr ⟨c, q, hq, by subst hc; decide⟩
  have hZ2s : optBlock (strFieldL "assignedTo") f2.assignedTo ++ ['\x7d'] = ['\x7d']
      ∨ ∃ c q, optBlock (strFieldL "assignedTo") f2.assignedTo ++ ['\x7d']
        = ',' :: '"' :: c :: q ∧ c ≠ 't' := by
    rcases restA_shape f2 with h | ⟨c, q, hq, hc⟩
    · exact Or.inl h
    · exact Or.inr ⟨c, q, hq, by subst hc; decide⟩
  obtain ⟨htags, h4⟩ := optBlock_tagsField_peel f1.tags f2.tags _ _ hZ1s hZ2s h3
  obtain ⟨hassigned, _⟩ := optBlock_strField_peel "assignedTo" 'a' "ssignedTo".data rfl
    f1.assignedTo f2.assignedTo _ _ (Or.inl rfl) (Or.inl rfl) h4
  calc f1 = ⟨f1.searchText, f1.iteration, f1.tags, f1.assignedTo⟩ := rfl
    _ = ⟨f2.searchText, f2.iteration, f2.tags, f2.assignedTo⟩ := by
        rw [hsearch, hiter, htags, hassigned]
    _ = f2 := rfl

/-- The filter-key serialization is injective on optional filter sets. -/
theorem filterKey_inj (f1 f2 : Option Filters) (h : filterKey f1 = filterKey f2) :
    f1 = f2 := by
  cases f1 with
  | none =>
    cases f2 with
    | none => rfl
    | some g =>
      exfalso
      have hd := congrArg String.data h
      have hn : "nofilters".data = 'n' :: "ofilters".data := rfl
      rw [filterKey, filterKey, stringifyFilters] at hd
      rw [hn] at hd
      rw [serL] at hd
      injection hd with h1 _
      exact absurd h1 (by decide)
  | some f =>
    cases f2 with
    | none =>
      exfalso
      have hd := congrArg String.data h
      have hn : "nofilters".data = 'n' :: "ofilters".data := rfl
      rw [filterKey, filterKey, stringifyFilters] at hd
      rw [hn] at hd
      rw [serL] at hd
      injection hd with h1 _
      exact absurd h1 (by decide)
    | some g =>
      have hd := congrArg String.data h
      exact congrArg some (serL_inj f g hd)

/-- Counterexample to claim C1 as stated: an undefined filter set and an
all-empty filter set (every field absent) do NOT yield the same cache key —
`filters ? JSON.stringify(filters) : 'nofilters'` serializes `undefined` to
`nofilters` but an all-empty filter object to the two-character object
serialiization. -/
theorem claim_C1_counterexample :
    epicsCacheKey "TeamX" none = "epics_TeamX_nofilters"
    ∧ epicsCacheKey "TeamX" (some ⟨none, none, none, none⟩) = "epics_TeamX_\x7b\x7d"
    ∧ epicsCacheKey "TeamX" none ≠ epicsCacheKey "TeamX" (some ⟨none, none, none, none⟩) :=
  ⟨rfl, rfl, by decide⟩

/-- Claim C1 (amended): for every scope tag, two optional filter sets produce
the same cache key iff they are equal as optional filter sets — field-wise
equal when both are defined, or both undefined. (An undefined filter set and
the all-empty defined filter set produce DIFFERENT keys, `_nofilters` versus
the serialized empty object, so the all-empty filter set does not share the
unfiltered key.) -/
theorem claim_C1_key_determinism (scopeTag : String) (f1 f2 : Option Filters) :
    buildCacheKey scopeTag f1 = buildCacheKey scopeTag f2 ↔ f1 = f2 := by
  constructor
  · intro h
    rw [buildCacheKey, buildCacheKey] at h
    exact filterKey_inj f1 f2 (strAppend_left_cancel h)
  · intro h
    rw [h]

end AdoBacklog
